import Mathlib

/-!
Verification of `examples/longitudinal-profiles.py`, a hardware-in-the-loop
longitudinal-maneuver test harness. The Python source is shallowly embedded:
each Python function that the claims depend on becomes a Lean definition with
the same control structure, external collaborators (the Panda device, the car
interface) are modelled as oracles / event streams, and the real-time loop
becomes a pure function from the injected fault pattern to the sequence of
observable actions, the collected trace and the final safety mode.
-/

set_option autoImplicit false
set_option maxRecDepth 100000

namespace LongitudinalProfiles

/-! ## Transport adapter (`class PandaCan`)

`PandaCan.can_recv` polls `self.p.can_recv()`; if the poll is empty and
`wait_for_one` is set it keeps polling until a non-empty result arrives, then
wraps the frames as `[[CanData(addr, dat, bus) for ...], ]`.  The underlying
device is modelled by the (finite prefix of the) sequence of raw results its
successive `can_recv()` calls return; exhausting that prefix while still
waiting models the unbounded blocking of the Python loop and yields `none`. -/

/-- One raw frame as returned by `panda.can_recv()`: `(addr, dat, bus)`. -/
abbrev RawFrame := Nat × List Nat × Nat

/-- `CanData(address, dat, src)` from `opendbc.car.can_definitions`, as
constructed at `examples/longitudinal-profiles.py:25`. -/
structure CanData where
  address : Nat
  dat : List Nat
  src : Nat
  deriving DecidableEq, Repr

/-- The `while len(recv) == 0 and wait_for_one` loop of
`PandaCan.can_recv` (lines 23-24): keep polling until a non-empty raw
batch is found. -/
def canRecvLoop : List (List RawFrame) → Option (List RawFrame)
  | [] => none
  | r :: rest => if r.length = 0 then canRecvLoop rest else some r

/-- `PandaCan.can_recv(wait_for_one)` (lines 21-25).  `polls` is the sequence
of results the underlying `self.p.can_recv()` produces; the first element is
consumed unconditionally, further elements only while the wait loop runs.
Returns the `[[CanData ...], ]` batch, or `none` when the device blocks
forever (every available poll empty while waiting). -/
def PandaCan.can_recv (polls : List (List RawFrame)) (wait_for_one : Bool) :
    Option (List (List CanData)) :=
  match polls with
  | [] => none
  | r :: rest =>
    let recv : Option (List RawFrame) :=
      if r.length = 0 ∧ wait_for_one then canRecvLoop rest else some r
    match recv with
    | none => none
    | some frames =>
        some [frames.map (fun f => { address := f.1, dat := f.2.1, src := f.2.2 })]

/-! ## Claims about the transport adapter -/

lemma canRecvLoop_nonempty (polls : List (List RawFrame))
    (h : ∃ r ∈ polls, r ≠ []) :
    ∃ frames, canRecvLoop polls = some frames ∧ 0 < frames.length := by
  induction polls with
  | nil => simp at h
  | cons r rest ih =>
    by_cases hr : r.length = 0
    · have hr0 : r = [] := List.length_eq_zero.mp hr
      simp only [canRecvLoop, hr, if_pos rfl]
      apply ih
      rcases h with ⟨b, hb, hbne⟩
      rcases List.mem_cons.mp hb with h1 | h2
      · exact absurd (h1 ▸ hr0) hbne
      · exact ⟨b, h2, hbne⟩
    · refine ⟨r, ?_, ?_⟩
      · simp [canRecvLoop, hr]
      · exact Nat.pos_of_ne_zero hr

/-- C9: whenever the underlying device eventually produces a non-empty raw
batch, blocking receive (`can_recv(wait_for_one=True)`) returns a batch
holding at least one frame — never an empty batch. -/
theorem can_recv_blocking_nonempty (polls : List (List RawFrame))
    (h : ∃ r ∈ polls, r ≠ []) :
    ∃ frames, PandaCan.can_recv polls true = some [frames] ∧ 0 < frames.length := by
  match polls with
  | [] => simp at h
  | r :: rest =>
    by_cases hr : r.length = 0
    · have hr0 : r = [] := List.length_eq_zero.mp hr
      have hrest : ∃ b ∈ rest, b ≠ [] := by
        rcases h with ⟨b, hb, hbne⟩
        rcases List.mem_cons.mp hb with h1 | h2
        · exact absurd (h1 ▸ hr0) hbne
        · exact ⟨b, h2, hbne⟩
      obtain ⟨frames, hloop, hpos⟩ := canRecvLoop_nonempty rest hrest
      refine ⟨frames.map (fun f => { address := f.1, dat := f.2.1, src := f.2.2 }), ?_, ?_⟩
      · simp [PandaCan.can_recv, hr, hloop]
      · simpa using hpos
    · refine ⟨r.map (fun f => { address := f.1, dat := f.2.1, src := f.2.2 }), ?_, ?_⟩
      · simp [PandaCan.can_recv, hr]
      · simpa using Nat.pos_of_ne_zero hr

/-- Witness for C9: a device that returns one empty poll and then a
single-frame poll. -/
theorem can_recv_blocking_nonempty_witness :
    (∃ r ∈ [([] : List RawFrame), [((0x123 : Nat), [0, 1], 0)]], r ≠ []) ∧
      ∃ frames, PandaCan.can_recv [[], [((0x123 : Nat), [0, 1], 0)]] true = some [frames] ∧
        0 < frames.length := by
  refine ⟨⟨[((0x123 : Nat), [0, 1], 0)], by simp, by simp⟩, ?_⟩
  exact can_recv_blocking_nonempty _ ⟨[((0x123 : Nat), [0, 1], 0)], by simp, by simp⟩

/-! ## Session model (`main`, lines 82-136)

`main` wraps the whole session in `try: ... finally:
p.set_safety_mode(Panda.SAFETY_NOOUTPUT)`.  Inside the `try` it sets
`SAFETY_ELM327`, fingerprints (`get_car`), asserts longitudinal control,
sets `SAFETY_ELM327` again, calls `CI.init`, sets `SAFETY_TOYOTA`, then for
the single maneuver runs a 300-tick stabilization loop and the scripted loop
over `m.get_msgs()`.  The report is written *after* the `try/finally`, so it
runs only when no exception propagates.

External failures are injected through an `Oracle`: whether `get_car`,
the assert, or `CI.init` raise, and the first stabilization / scripted tick
index (if any) at which `CI.update` raises.  Every observable action is
recorded as an `Event` so that mode changes, sends and log calls can be
examined on each path. -/

/-- Safety modes actually used by the script: `Panda.SAFETY_ELM327`
(passive/diagnostic), `Panda.SAFETY_TOYOTA` (active, vehicle-specific) and
`Panda.SAFETY_NOOUTPUT` (disabled). -/
inductive SafetyMode where
  | ELM327
  | TOYOTA
  | NOOUTPUT
  deriving DecidableEq, Repr

/-- Observable actions of the session, in program order.  `update t` is a
`CI.update` call processing the frames of tick `t`, `applyCC t` a `CI.apply`
call, `send` a bus transmission, `logT t` the `m.log(t, ...)` call, `sleepDT`
the `time.sleep(DT)` suspension, `modeSet m` a `p.set_safety_mode` call. -/
inductive Event where
  | modeSet (m : SafetyMode)
  | recv
  | update (t : Nat)
  | applyCC (t : Nat)
  | send
  | logT (t : Nat)
  | sleepDT
  deriving DecidableEq, Repr

/-- Fault injection for the external collaborators: which calls raise. -/
structure Oracle where
  /-- `get_car` (fingerprinting, line 87) raises. -/
  getCarFails : Bool
  /-- value of `CI.CP.openpilotLongitudinalControl` checked by the `assert`
  on line 89; `false` makes the assert raise. -/
  longCtrlEnabled : Bool
  /-- `CI.init` (line 92) raises. -/
  initFails : Bool
  /-- first stabilization tick at which `CI.update` (line 102) raises. -/
  stabFailAt : Option Nat
  /-- first scripted tick at which `CI.update` (line 110) raises
  (e.g. a `DecodeError`). -/
  scriptFailAt : Option Nat

/-- The oracle for a fault-free session. -/
def Oracle.ok : Oracle :=
  { getCarFails := false, longCtrlEnabled := true, initFails := false,
    stabFailAt := none, scriptFailAt := none }

/-- `DT = 0.01`; `int(1./DT)` evaluates to 100 in Python (the division
rounds to exactly `100.0`), so one maneuver scripts 100 ticks. -/
def ticksPerSecond : Nat := 100

/-- `Maneuver.get_msgs` (lines 64-66) yields `t = 0, 1, ..., int(1./DT)-1`,
i.e. the tick indices `0..99` (the accompanying `CarControl` intent is the
constant value built by `get_cc`). -/
def get_msgs_ticks : List Nat := List.range ticksPerSecond

/-- The stabilization loop (lines 100-105): `int(3./DT)` = 300 neutral
ticks, each of which receives, decodes (`CI.update`, which may raise),
encodes a disabled `CarControl`, sends it, and sleeps.  Nothing is logged.
Returns the emitted events and whether the phase completed. -/
def stabLoop (failAt : Option Nat) : List Nat → List Event × Bool
  | [] => ([], true)
  | k :: rest =>
    if failAt = some k then
      ([Event.recv, Event.update k], false)
    else
      ([Event.recv, Event.update k, Event.applyCC k, Event.send, Event.sleepDT]
          ++ (stabLoop failAt rest).1,
        (stabLoop failAt rest).2)

/-- The scripted loop (lines 109-120): for each tick `t` from the maneuver
script it receives, calls `CI.update` (which may raise), calls
`CI.apply(msg)`, does **not** send (`p.can_send_many` is commented out on
line 114), logs `t`, sleeps, and finally breaks when
`len(m._log["t"]) > cap` (the source hard-codes `cap = 100`).  Arguments:
remaining ticks and the `t` column of the trace so far.  Returns the emitted
events, the final `t` column, and whether the loop ended without raising. -/
def scriptedLoop (failAt : Option Nat) (cap : Nat) :
    List Nat → List Nat → List Event × List Nat × Bool
  | [], tr => ([], tr, true)
  | t :: rest, tr =>
    if failAt = some t then
      ([Event.recv, Event.update t], tr, false)
    else if cap < (tr ++ [t]).length then
      ([Event.recv, Event.update t, Event.applyCC t, Event.logT t, Event.sleepDT],
        tr ++ [t], true)
    else
      ([Event.recv, Event.update t, Event.applyCC t, Event.logT t, Event.sleepDT]
          ++ (scriptedLoop failAt cap rest (tr ++ [t])).1,
        (scriptedLoop failAt cap rest (tr ++ [t])).2)

/-- Result of one session: all events (the final one being the `finally`
mode set), the collected maneuver `t` column, whether the `try` body
completed without an exception, and whether the report file was written. -/
structure SessionResult where
  events : List Event
  trace : List Nat
  ok : Bool
  reportWritten : Bool
  deriving DecidableEq, Repr

/-- `main` (lines 82-136).  Each early branch models an exception
propagating out of the `try` body: the `finally` block still appends
`modeSet NOOUTPUT`, but the report-writing code after the `try/finally` is
skipped, so `reportWritten` is `true` only on the fault-free path. -/
def main_run (o : Oracle) : SessionResult :=
  if o.getCarFails then
    { events := [Event.modeSet SafetyMode.ELM327, Event.modeSet SafetyMode.NOOUTPUT],
      trace := [], ok := false, reportWritten := false }
  else if o.longCtrlEnabled = false then
    { events := [Event.modeSet SafetyMode.ELM327, Event.modeSet SafetyMode.NOOUTPUT],
      trace := [], ok := false, reportWritten := false }
  else if o.initFails then
    { events := [Event.modeSet SafetyMode.ELM327, Event.modeSet SafetyMode.ELM327,
        Event.modeSet SafetyMode.NOOUTPUT],
      trace := [], ok := false, reportWritten := false }
  else if (stabLoop o.stabFailAt (List.range 300)).2 = false then
    { events := [Event.modeSet SafetyMode.ELM327, Event.modeSet SafetyMode.ELM327,
          Event.modeSet SafetyMode.TOYOTA]
        ++ (stabLoop o.stabFailAt (List.range 300)).1
        ++ [Event.modeSet SafetyMode.NOOUTPUT],
      trace := [], ok := false, reportWritten := false }
  else
    { events := [Event.modeSet SafetyMode.ELM327, Event.modeSet SafetyMode.ELM327,
          Event.modeSet SafetyMode.TOYOTA]
        ++ (stabLoop o.stabFailAt (List.range 300)).1
        ++ (scriptedLoop o.scriptFailAt 100 get_msgs_ticks []).1
        ++ [Event.modeSet SafetyMode.NOOUTPUT],
      trace := (scriptedLoop o.scriptFailAt 100 get_msgs_ticks []).2.1,
      ok := (scriptedLoop o.scriptFailAt 100 get_msgs_ticks []).2.2,
      reportWritten := (scriptedLoop o.scriptFailAt 100 get_msgs_ticks []).2.2 }

/-- The safety mode in force after a sequence of events: the mode register of the transport starts unset and each `set_safety_mode` call overwrites it. -/
def lastModeSet (es : List Event) : Option SafetyMode :=
  es.foldl (fun acc e => match e with | Event.modeSet m => some m | _ => acc) none

/-- The `CI.update` calls among a list of events. -/
def updateEvents (es : List Event) : List Event :=
  es.filter fun e => match e with | Event.update _ => true | _ => false

/-- The `m.log` calls among a list of events. -/
def logEvents (es : List Event) : List Event :=
  es.filter fun e => match e with | Event.logT _ => true | _ => false

/-! ## Safety-mode teardown lemmas -/

lemma lastModeSet_append_disable (xs : List Event) :
    lastModeSet (xs ++ [Event.modeSet SafetyMode.NOOUTPUT]) = some SafetyMode.NOOUTPUT := by
  simp [lastModeSet, List.foldl_append]

lemma stabLoop_no_disable (failAt : Option Nat) (ks : List Nat) :
    Event.modeSet SafetyMode.NOOUTPUT ∉ (stabLoop failAt ks).1 := by
  induction ks with
  | nil => simp [stabLoop]
  | cons k rest ih =>
    by_cases hf : failAt = some k
    · simp [stabLoop, hf]
    · simp [stabLoop, hf, ih]

lemma scriptedLoop_no_disable (failAt : Option Nat) (cap : Nat) (ts tr : List Nat) :
    Event.modeSet SafetyMode.NOOUTPUT ∉ (scriptedLoop failAt cap ts tr).1 := by
  induction ts generalizing tr with
  | nil => simp [scriptedLoop]
  | cons t rest ih =>
    by_cases hf : failAt = some t
    · simp [scriptedLoop, hf]
    · by_cases hc : cap < (tr ++ [t]).length
      · have hc2 : cap < tr.length + 1 := by simpa using hc
        simp [scriptedLoop, hf, hc2]
      · simp only [scriptedLoop, if_neg hf, if_neg hc]
        simp [ih]

/-- Teardown helper: on every oracle, the last mode set is `NOOUTPUT` and it
is set exactly once (only the `finally` block issues it). -/
lemma main_run_teardown (o : Oracle) :
    lastModeSet (main_run o).events = some SafetyMode.NOOUTPUT ∧
      (main_run o).events.count (Event.modeSet SafetyMode.NOOUTPUT) = 1 := by
  have hstab := List.count_eq_zero.mpr (stabLoop_no_disable o.stabFailAt (List.range 300))
  have hscr := List.count_eq_zero.mpr
    (scriptedLoop_no_disable o.scriptFailAt 100 get_msgs_ticks [])
  unfold main_run
  split_ifs with h1 h2 h3 h4 <;>
    refine ⟨?_, ?_⟩ <;>
    first
      | (simp only [List.count_append, hstab, hscr]; decide)
      | simp [lastModeSet, List.foldl_append]

/-! ## Scripted-loop characterization -/

/-- Events of one fault-free scripted tick, in program order (lines
109-117): receive, decode, encode — and then log and sleep, with **no**
send in between, since line 114 is commented out. -/
def tickEvents (t : Nat) : List Event :=
  [Event.recv, Event.update t, Event.applyCC t, Event.logT t, Event.sleepDT]

lemma scriptedLoop_no_send (failAt : Option Nat) (cap : Nat) (ts tr : List Nat) :
    Event.send ∉ (scriptedLoop failAt cap ts tr).1 := by
  induction ts generalizing tr with
  | nil => simp [scriptedLoop]
  | cons t rest ih =>
    by_cases hf : failAt = some t
    · simp [scriptedLoop, hf]
    · by_cases hc : cap < (tr ++ [t]).length
      · have hc2 : cap < tr.length + 1 := by simpa using hc
        simp [scriptedLoop, hf, hc2]
      · simp only [scriptedLoop, if_neg hf, if_neg hc]
        simp [ih]

/-- When no tick fails and the cap is never exceeded, the scripted loop
processes every tick: its events are the per-tick events in order and the
`t` column gains every tick index. -/
lemma scriptedLoop_noFail_all (cap : Nat) :
    ∀ (ts tr : List Nat), tr.length + ts.length ≤ cap →
      scriptedLoop none cap ts tr = (ts.flatMap tickEvents, tr ++ ts, true) := by
  intro ts
  induction ts with
  | nil => intro tr h; simp [scriptedLoop]
  | cons t rest ih =>
    intro tr h
    have hf : (none : Option Nat) ≠ some t := by simp
    have hc : ¬ cap < (tr ++ [t]).length := by
      simp only [List.length_append, List.length_cons, List.length_nil,
        List.length_cons] at *
      omega
    rw [scriptedLoop, if_neg hf, if_neg hc,
      ih (tr ++ [t]) (by simp only [List.length_append, List.length_cons,
        List.length_nil, List.length_cons] at *; omega)]
    simp [tickEvents]

/-- When no tick fails but the cap is smaller than the number of remaining
ticks, the loop runs until the `t` column reaches `cap + 1` samples (the
source checks `len(m._log["t"]) > cap` only *after* logging) and then
stops as a normal completion. -/
lemma scriptedLoop_noFail_capped (cap : Nat) :
    ∀ (ts tr : List Nat), tr.length ≤ cap →
      (scriptedLoop none cap ts tr).2 =
        (tr ++ ts.take (cap + 1 - tr.length), true) := by
  intro ts
  induction ts with
  | nil => intro tr h; simp [scriptedLoop]
  | cons t rest ih =>
    intro tr h
    have hf : (none : Option Nat) ≠ some t := by simp
    by_cases hc : cap < (tr ++ [t]).length
    · have hcap : tr.length = cap := by
        simp only [List.length_append, List.length_cons, List.length_nil] at hc
        omega
      have h1 : cap + 1 - tr.length = 1 := by omega
      rw [scriptedLoop, if_neg hf, if_pos hc, h1]
      simp
    · have h2 : tr.length + 1 ≤ cap := by
        simp only [List.length_append, List.length_cons, List.length_nil] at hc
        omega
      rw [scriptedLoop, if_neg hf, if_neg hc,
        ih (tr ++ [t]) (by simp only [List.length_append, List.length_cons,
          List.length_nil]; omega)]
      have h3 : cap + 1 - tr.length = (cap + 1 - (tr ++ [t]).length) + 1 := by
        simp only [List.length_append, List.length_cons, List.length_nil]
        omega
      rw [h3]
      simp [List.take_succ_cons]

/-! ## Claims about the session and the control loop -/

/-- C2: however the session ends — normal completion or an error raised by
fingerprinting, the longitudinal-control assert, `CI.init`, the
stabilization loop or the scripted loop — the mode observed after teardown
is `SAFETY_NOOUTPUT` (disabled), and the disable command is issued exactly
once, by the `finally` block. -/
theorem session_teardown_disabled (o : Oracle) :
    lastModeSet (main_run o).events = some SafetyMode.NOOUTPUT ∧
      (main_run o).events.count (Event.modeSet SafetyMode.NOOUTPUT) = 1 :=
  main_run_teardown o

/-- C1 counterexample: in a fault-free scripted run, tick 0 executes
without error (it is decoded, encoded and logged, and the loop finishes
normally), yet no send of the encoded batch ever occurs during scripted
execution — `p.can_send_many` is commented out on line 114, so the claim
"every scripted tick also sends the encoded batch" is false. -/
theorem scripted_send_counterexample :
    (scriptedLoop none 100 get_msgs_ticks []).2.2 = true ∧
      Event.logT 0 ∈ (scriptedLoop none 100 get_msgs_ticks []).1 ∧
      Event.applyCC 0 ∈ (scriptedLoop none 100 get_msgs_ticks []).1 ∧
      Event.send ∉ (scriptedLoop none 100 get_msgs_ticks []).1 := by
  decide

/-- C1 amended: every scripted tick that executes without error obtains the
control intent and encodes it via `CI.apply` and logs it before the sleep of the tick, but the encoded batch is never sent during scripted execution (the
send call is commented out); no send event occurs in the scripted loop. -/
theorem scripted_tick_encodes_but_never_sends (t : Nat) (h : t < ticksPerSecond) :
    Event.applyCC t ∈ (scriptedLoop none 100 get_msgs_ticks []).1 ∧
      Event.logT t ∈ (scriptedLoop none 100 get_msgs_ticks []).1 ∧
      Event.send ∉ (scriptedLoop none 100 get_msgs_ticks []).1 := by
  have hall := scriptedLoop_noFail_all 100 get_msgs_ticks []
    (by simp [get_msgs_ticks, ticksPerSecond])
  refine ⟨?_, ?_, scriptedLoop_no_send none 100 get_msgs_ticks []⟩ <;>
    · rw [hall]
      exact List.mem_flatMap.mpr ⟨t, by simpa [get_msgs_ticks, ticksPerSecond] using h,
        by simp [tickEvents]⟩

/-- Witness for C1 amended, at tick `t = 0`. -/
theorem scripted_tick_encodes_but_never_sends_witness :
    0 < ticksPerSecond ∧
      (Event.applyCC 0 ∈ (scriptedLoop none 100 get_msgs_ticks []).1 ∧
        Event.logT 0 ∈ (scriptedLoop none 100 get_msgs_ticks []).1 ∧
        Event.send ∉ (scriptedLoop none 100 get_msgs_ticks []).1) :=
  ⟨by decide, scripted_tick_encodes_but_never_sends 0 (by decide)⟩

/-- C3 counterexample: a script of `N = 5` ticks with sample cap `M = 3`
does not stop with exactly 3 samples — the cap is checked only after
logging, so a fourth sample is recorded. -/
theorem sample_cap_counterexample :
    ¬ (scriptedLoop none 3 (List.range 5) []).2.1.length = 3 := by
  decide

/-- C3 amended: with `N` scripted ticks and sample cap `M < N`, the loop
stops at the cap (reached before the script ends) as a normal completion,
and the trace holds exactly `M + 1` samples, `tick_index = 0, 1, ..., M`,
strictly increasing with no gaps and no duplicates (the source breaks only
once `len(m._log["t"]) > M`, i.e. one sample after the cap is reached). -/
theorem sample_cap_stops_at_M_plus_one (N M : Nat) (h : M < N) :
    (scriptedLoop none M (List.range N) []).2 = (List.range (M + 1), true) ∧
      (scriptedLoop none M (List.range N) []).2.1.length = M + 1 := by
  have hres := scriptedLoop_noFail_capped M (List.range N) [] (by simp)
  have htake : (List.range N).take (M + 1 - List.length ([] : List Nat)) =
      List.range (M + 1) := by
    rw [List.length_nil, Nat.sub_zero, List.take_range, Nat.min_eq_left (by omega)]
  rw [htake, List.nil_append] at hres
  exact ⟨hres, by rw [hres]; simp⟩

/-- Witness for C3 amended, at `N = 5`, `M = 3`. -/
theorem sample_cap_stops_at_M_plus_one_witness :
    3 < 5 ∧
      ((scriptedLoop none 3 (List.range 5) []).2 = (List.range 4, true) ∧
        (scriptedLoop none 3 (List.range 5) []).2.1.length = 4) :=
  ⟨by decide, sample_cap_stops_at_M_plus_one 5 3 (by decide)⟩

/-- The oracle of end-to-end scenario C: `CI.update` raises a `DecodeError`
on scripted tick 42; everything else is fault-free. -/
def decodeErrorAt42 : Oracle :=
  { getCarFails := false, longCtrlEnabled := true, initFails := false,
    stabFailAt := none, scriptFailAt := some 42 }

/-- C7: if `CI.update` raises `DecodeError` on scripted tick 42 of the
100-tick maneuver, the trace holds exactly 42 samples (`t = 0..41`), the
loop stops with the error (the decode of tick 42 was the last `CI.update`
attempted: ticks 43-99 are never started and tick 42 is never logged), and
the session proceeds to the disable-on-exit path. -/
theorem decode_error_on_tick_42 :
    (main_run decodeErrorAt42).trace = List.range 42 ∧
      (main_run decodeErrorAt42).trace.length = 42 ∧
      (main_run decodeErrorAt42).ok = false ∧
      updateEvents (scriptedLoop (some 42) 100 get_msgs_ticks []).1 =
        (List.range 43).map Event.update ∧
      logEvents (scriptedLoop (some 42) 100 get_msgs_ticks []).1 =
        (List.range 42).map Event.logT ∧
      lastModeSet (main_run decodeErrorAt42).events = some SafetyMode.NOOUTPUT := by
  decide

/-- C8: the fault-free session scripts the 1.0 s maneuver at 100 Hz —
`get_msgs` yields exactly 100 ticks, all of them are attempted (one
`CI.update` per tick, in order), the 100-sample cap is not exceeded, and
the `t` column of the completed trace is `[0, 1, ..., 99]`. -/
theorem full_maneuver_trace :
    (main_run Oracle.ok).trace = List.range 100 ∧
      (main_run Oracle.ok).trace.length = 100 ∧
      (main_run Oracle.ok).ok = true ∧
      updateEvents (scriptedLoop none 100 get_msgs_ticks []).1 =
        (List.range 100).map Event.update := by
  decide

/-- C6 counterexample: when a `DecodeError` aborts the session on scripted
tick 42, the already-collected samples survive (the trace is non-empty) and
the bus is disabled, but the report is **not** generated — the
report-writing code sits after the `try/finally` and the propagating
exception skips it. -/
theorem report_after_error_counterexample :
    (main_run decodeErrorAt42).ok = false ∧
      (main_run decodeErrorAt42).trace ≠ [] ∧
      (main_run decodeErrorAt42).reportWritten = false := by
  decide

/-- C6 amended: the report document is generated exactly when the session
body completes without error; on any error exit the bus is still left in
Disabled mode and the collected trace is retained, but no report is
written. -/
theorem report_only_on_normal_completion (o : Oracle) :
    ((main_run o).reportWritten = true ↔ (main_run o).ok = true) ∧
      lastModeSet (main_run o).events = some SafetyMode.NOOUTPUT := by
  refine ⟨?_, (main_run_teardown o).1⟩
  unfold main_run
  split_ifs <;> simp

/-! ## Trace logger (`Maneuver._log` / `Maneuver.log`, lines 31-73)

`Maneuver` is a dataclass with fields `description` and `setup`;
`_log = defaultdict(list)` on line 40 carries **no annotation**, so it is a
plain class attribute — one `defaultdict` object shared by every `Maneuver`
instance and never re-created.  `log(t, cc, cs)` appends `t` to
`_log["t"]`, then for each group in
`{"carControl": cc, "carState": cs, "carControl.actuators": ...,
"carControl.cruiseControl": ..., "carState.cruiseState": ...}` appends each
`asdict` item `(k2, v2)` to `_log[f"{k}.{k2}"]`.  The externally-defined
`CarControl`/`CarState` values enter `log` only through this flattening, so
a call is modelled by the tick value `t` and the group list
`to_log : List (String × List (String × α))` — the group name paired with
its `asdict` items; sampled values are opaque (`α`). -/

/-- `Setup` (lines 31-33). -/
inductive Setup where
  | STOPPED
  | STEADY_STATE_SPEED
  deriving DecidableEq, Repr

/-- The `Maneuver` dataclass fields (lines 35-38): `_log` is *not* a field
(no annotation on line 40), it is class-level state. -/
structure Maneuver where
  description : String
  setup : Setup
  deriving DecidableEq, Repr

/-- `MANEUVERS[0]` (lines 75-80). -/
def maneuverStartFromStop : Maneuver :=
  { description := "start from stop", setup := Setup.STOPPED }

/-- The shared trace: `defaultdict(list)` as an insertion-ordered
association of dotted field paths to sample columns. -/
abbrev Trace (α : Type) := List (String × List α)

/-- `self._log[k].append(v)`: append to the column at `k`, creating an
empty column first when the key is absent (defaultdict behaviour). -/
def appendAt {α : Type} : Trace α → String → α → Trace α
  | [], k, v => [(k, [v])]
  | (k2, vs) :: rest, k, v =>
    if k2 = k then (k2, vs ++ [v]) :: rest else (k2, vs) :: appendAt rest k v

/-- `m._log[k]` as read back (e.g. by the report code): the column at `k`,
`[]` when the key was never written. -/
def col {α : Type} : Trace α → String → List α
  | [], _ => []
  | (k2, vs) :: rest, k => if k2 = k then vs else col rest k

/-- The `(dotted path, value)` pairs appended by the nested loop of `log`
(lines 71-73): group `k` with `asdict` items `(k2, v2)` contributes
`(f"{k}.{k2}", v2)`, in order. -/
def flatPairs {α : Type} (to_log : List (String × List (String × α))) :
    List (String × α) :=
  to_log.flatMap (fun g => g.2.map (fun f => (g.1 ++ "." ++ f.1, f.2)))

/-- `Maneuver.log` (lines 68-73): append `t` to the `"t"` column, then
append every flattened pair to its column.  There is no validation of any
kind — in particular no check that the field set matches earlier calls. -/
def Maneuver.log {α : Type} (tr : Trace α) (t : α)
    (to_log : List (String × List (String × α))) : Trace α :=
  (flatPairs to_log).foldl (fun acc kv => appendAt acc kv.1 kv.2) (appendAt tr "t" t)

/-- `m._log`: Python attribute lookup on the instance `m` finds the single
class attribute `Maneuver._log` (line 40), so the result is the class-level
trace, independent of which `Maneuver` value `m` is. -/
def Maneuver.logView {α : Type} (classLog : Trace α) (_m : Maneuver) : Trace α :=
  classLog

/-- The field set of a call: each group name with its field names. -/
def shapeOf {α : Type} (to_log : List (String × List (String × α))) :
    List (String × List String) :=
  to_log.map (fun g => (g.1, g.2.map Prod.fst))

/-- The dotted paths a call of field set `S` appends to, other than `"t"`. -/
def tailKeys (S : List (String × List String)) : List String :=
  S.flatMap (fun g => g.2.map (fun f => g.1 ++ "." ++ f))

/-- All tracked paths of a call of field set `S`: `"t"` plus the dotted
field paths. -/
def flatKeys (S : List (String × List String)) : List String :=
  "t" :: tailKeys S

/-- The class-level trace after a sequence of `log` calls starting from the
fresh `defaultdict`. -/
def runLog {α : Type} (calls : List (α × List (String × List (String × α)))) :
    Trace α :=
  calls.foldl (fun tr c => Maneuver.log tr c.1 c.2) []

/-! ### Column lemmas -/

lemma col_appendAt_same {α : Type} (tr : Trace α) (k : String) (v : α) :
    col (appendAt tr k v) k = col tr k ++ [v] := by
  induction tr with
  | nil => simp [appendAt, col]
  | cons p rest ih =>
    rcases p with ⟨k2, vs⟩
    by_cases h : k2 = k
    · simp [appendAt, col, h]
    · simp [appendAt, col, h, ih]

lemma col_appendAt_other {α : Type} (tr : Trace α) (k k2 : String) (v : α)
    (h : k2 ≠ k) : col (appendAt tr k v) k2 = col tr k2 := by
  induction tr with
  | nil => simp [appendAt, col, Ne.symm h]
  | cons p rest ih =>
    rcases p with ⟨k3, vs⟩
    by_cases h3 : k3 = k
    · subst h3
      simp [appendAt, col, Ne.symm h]
    · by_cases h4 : k3 = k2 <;> simp [appendAt, col, h3, h4, h, ih]

lemma col_foldl {α : Type} (ps : List (String × α)) :
    ∀ (tr : Trace α) (k : String),
      col (ps.foldl (fun acc kv => appendAt acc kv.1 kv.2) tr) k
        = col tr k ++ (ps.filter (fun kv => kv.1 == k)).map Prod.snd := by
  induction ps with
  | nil => simp
  | cons p rest ih =>
    intro tr k
    rw [List.foldl_cons, ih]
    by_cases h : p.1 = k
    · rw [← h, col_appendAt_same]
      simp [List.filter_cons, h]
    · rw [col_appendAt_other tr p.1 k p.2 (fun hk => h hk.symm)]
      simp [List.filter_cons, h]

lemma flatPairs_keys {α : Type} (to_log : List (String × List (String × α))) :
    (flatPairs to_log).map Prod.fst = tailKeys (shapeOf to_log) := by
  induction to_log with
  | nil => rfl
  | cons g rest ih =>
    simp only [flatPairs, shapeOf, tailKeys, List.flatMap_cons, List.map_cons,
      List.map_append, List.map_map] at *
    rw [ih]
    rfl

lemma filter_key_length {α : Type} (ps : List (String × α)) (k : String) :
    ((ps.filter (fun kv => kv.1 == k)).map Prod.snd).length
      = (ps.map Prod.fst).count k := by
  induction ps with
  | nil => rfl
  | cons p rest ih =>
    by_cases h : p.1 = k <;>
      simp [List.filter_cons, List.count_cons, h, ih]

/-- Effect of one `log` call on one column: the `"t"` column gains `t`, and
every column gains the values of the flattened pairs carrying its key. -/
lemma col_log {α : Type} (tr : Trace α) (t : α)
    (to_log : List (String × List (String × α))) (k : String) :
    col (Maneuver.log tr t to_log) k
      = (if k = "t" then col tr k ++ [t] else col tr k)
        ++ ((flatPairs to_log).filter (fun kv => kv.1 == k)).map Prod.snd := by
  unfold Maneuver.log
  rw [col_foldl]
  congr 1
  by_cases h : k = "t"
  · subst h
    simp [col_appendAt_same]
  · simp only [h, if_false]
    exact col_appendAt_other tr "t" k t h

/-- One `log` call whose field set yields pairwise-distinct tracked paths
appends exactly one sample to each of those paths. -/
lemma col_log_length {α : Type} (tr : Trace α) (t : α)
    (to_log : List (String × List (String × α))) (k : String)
    (hnd : (flatKeys (shapeOf to_log)).Nodup)
    (hk : k ∈ flatKeys (shapeOf to_log)) :
    (col (Maneuver.log tr t to_log) k).length = (col tr k).length + 1 := by
  rw [col_log, List.length_append, filter_key_length, flatPairs_keys]
  rcases List.nodup_cons.mp hnd with ⟨hnt, hndTail⟩
  by_cases h : k = "t"
  · subst h
    rw [List.count_eq_zero.mpr hnt]
    simp
  · have hkTail : k ∈ tailKeys (shapeOf to_log) := by
      rcases List.mem_cons.mp hk with h1 | h2
      · exact absurd h1 h
      · exact h2
    rw [List.count_eq_one_of_mem hndTail hkTail]
    simp [h]

lemma runLog_col_length {α : Type} (S : List (String × List String))
    (hnd : (flatKeys S).Nodup) (k : String) (hk : k ∈ flatKeys S) :
    ∀ (calls : List (α × List (String × List (String × α)))),
      (∀ c ∈ calls, shapeOf c.2 = S) →
      ∀ tr : Trace α,
        (col (calls.foldl (fun tr c => Maneuver.log tr c.1 c.2) tr) k).length
          = (col tr k).length + calls.length := by
  intro calls
  induction calls with
  | nil => intro _ tr; simp
  | cons c rest ih =>
    intro hshape tr
    have hc : shapeOf c.2 = S := hshape c (List.mem_cons_self _ _)
    rw [List.foldl_cons,
      ih (fun c2 h2 => hshape c2 (List.mem_cons_of_mem _ h2)) (Maneuver.log tr c.1 c.2),
      col_log_length tr c.1 c.2 k (by rw [hc]; exact hnd) (by rw [hc]; exact hk)]
    simp [Nat.add_comm, Nat.add_assoc, Nat.add_left_comm]

/-! ## The tracked field set of the `log` call in the source

`log` flattens the externally-defined `CarControl`/`CarState` dataclasses
(`opendbc.car.structs`, outside these sources). -/

/-- Modelled from the spec: the field layout of the external `CarControl`
and `CarState` structures, which live in `opendbc.car.structs` and are not
among these sources.  The fields of `CarControl` are those constructed by
`get_cc` (lines 42-62); the fields of `CarState` follow the VehicleState of the spec
("speed, acceleration, cruise status, validity flag") plus the paths the
report reads (`carState.aEgo`, `carState.cruiseState.enabled`). -/
def toLogShape : List (String × List String) :=
  [("carControl", ["enabled", "latActive", "longActive", "actuators", "cruiseControl"]),
   ("carState", ["vEgo", "aEgo", "canValid", "cruiseState"]),
   ("carControl.actuators", ["gas", "brake", "speed", "accel", "longControlState"]),
   ("carControl.cruiseControl", ["cancel", "resume", "override"]),
   ("carState.cruiseState", ["enabled", "available", "speed"])]

/-- A concrete `log` argument of field set `toLogShape`, every sampled
value 0. -/
def exampleCall : List (String × List (String × Nat)) :=
  toLogShape.map (fun g => (g.1, g.2.map (fun f => (f, 0))))

/-- A `log` argument with the full field set and unit values, as a first
call of a run. -/
def firstCall : List (String × List (String × Nat)) :=
  [("carControl", [("enabled", 1), ("latActive", 0)])]

/-- A `log` argument whose field set differs from that of `firstCall`
(`latActive` missing). -/
def mismatchedCall : List (String × List (String × Nat)) :=
  [("carControl", [("enabled", 1)])]

/-! ## Claims about the trace logger -/

/-- C10: for any field set `S` whose tracked paths (`"t"` plus the dotted
field paths) are pairwise distinct, after any sequence of `log` calls of
that same field set, the column of every tracked path — the `t` sequence
included — holds exactly one sample per call: all columns have equal
length, the number of calls. -/
theorem log_appends_one_per_path {α : Type} (S : List (String × List String))
    (calls : List (α × List (String × List (String × α))))
    (hnd : (flatKeys S).Nodup) (hshape : ∀ c ∈ calls, shapeOf c.2 = S)
    (k : String) (hk : k ∈ flatKeys S) :
    (col (runLog calls) k).length = calls.length := by
  have h := runLog_col_length S hnd k hk calls hshape []
  simpa [runLog, col] using h

/-- Witness for C10: two identically-shaped calls of the field
set from the source leave every tracked column with two samples (checked at
`carControl.actuators.accel` and at `t`). -/
theorem log_appends_one_per_path_witness :
    (flatKeys toLogShape).Nodup ∧
      (∀ c ∈ [((0 : Nat), exampleCall), (1, exampleCall)], shapeOf c.2 = toLogShape) ∧
      "carControl.actuators.accel" ∈ flatKeys toLogShape ∧
      "t" ∈ flatKeys toLogShape ∧
      (col (runLog [((0 : Nat), exampleCall), (1, exampleCall)])
          "carControl.actuators.accel").length = 2 ∧
      (col (runLog [((0 : Nat), exampleCall), (1, exampleCall)]) "t").length = 2 := by
  refine ⟨by decide, by decide, by decide, by decide, ?_, ?_⟩
  · exact log_appends_one_per_path toLogShape _ (by decide) (by decide) _ (by decide)
  · exact log_appends_one_per_path toLogShape _ (by decide) (by decide) _ (by decide)

/-- C4 counterexample: the field set of the second `log` call differs from the
first, yet no `TraceSchemaError` exists anywhere in the source and
the call appends anyway — the trace changes and the `t` column grows. -/
theorem log_schema_mismatch_counterexample :
    shapeOf mismatchedCall ≠ shapeOf firstCall ∧
      Maneuver.log (Maneuver.log ([] : Trace Nat) 0 firstCall) 1 mismatchedCall
        ≠ Maneuver.log ([] : Trace Nat) 0 firstCall ∧
      (col (Maneuver.log (Maneuver.log ([] : Trace Nat) 0 firstCall) 1 mismatchedCall)
          "t").length = 2 := by
  decide

/-- C4 amended: `log` performs no field-set validation — *every* call,
whether or not its field set matches the first call of the run, silently appends
exactly one sample to each of its own tracked paths (creating new columns
as needed); no error is ever raised. -/
theorem log_never_validates_schema {α : Type} (tr : Trace α) (t : α)
    (to_log : List (String × List (String × α))) (k : String)
    (hnd : (flatKeys (shapeOf to_log)).Nodup)
    (hk : k ∈ flatKeys (shapeOf to_log)) :
    (col (Maneuver.log tr t to_log) k).length = (col tr k).length + 1 :=
  col_log_length tr t to_log k hnd hk

/-- Witness for C4 amended: a mismatched second call still appends one
sample to its `t` column. -/
theorem log_never_validates_schema_witness :
    (flatKeys (shapeOf mismatchedCall)).Nodup ∧
      "t" ∈ flatKeys (shapeOf mismatchedCall) ∧
      (col (Maneuver.log (Maneuver.log ([] : Trace Nat) 0 firstCall) 1 mismatchedCall)
            "t").length
        = (col (Maneuver.log ([] : Trace Nat) 0 firstCall) "t").length + 1 :=
  ⟨by decide, by decide,
    log_never_validates_schema _ 1 mismatchedCall "t" (by decide) (by decide)⟩

/-- A second maneuver value, distinct from `MANEUVERS[0]`. -/
def maneuverSteady : Maneuver :=
  { description := "steady state", setup := Setup.STEADY_STATE_SPEED }

/-- C5 counterexample: `_log` is a class attribute, so a sample logged
during the run of `maneuverStartFromStop` is immediately observable through a
*different* `_log` maneuver view — traces are shared, not per-run. -/
theorem trace_per_run_counterexample :
    maneuverStartFromStop ≠ maneuverSteady ∧
      col (Maneuver.logView
          (Maneuver.log (Maneuver.logView ([] : Trace Nat) maneuverStartFromStop)
            7 firstCall)
          maneuverSteady) "t" = [7] := by
  decide

/-- C5 amended: all `Maneuver` values share the single class-level `_log`,
which is never re-created between runs: a sample logged through the view of one
maneuver is observable, identically, through the view of every other
maneuver (here on the `t` column, for any prior shared state). -/
theorem trace_shared_across_runs {α : Type} (m1 m2 : Maneuver)
    (classLog : Trace α) (t : α) (to_log : List (String × List (String × α)))
    (hnd : (flatKeys (shapeOf to_log)).Nodup) :
    col (Maneuver.logView
        (Maneuver.log (Maneuver.logView classLog m1) t to_log) m2) "t"
      = col classLog "t" ++ [t] := by
  unfold Maneuver.logView
  rw [col_log]
  rcases List.nodup_cons.mp hnd with ⟨hnt, _⟩
  have hfil : (flatPairs to_log).filter (fun kv => kv.1 == "t") = [] := by
    rw [List.filter_eq_nil_iff]
    intro kv hkv hbeq
    exact hnt (flatPairs_keys to_log ▸
      List.mem_map.mpr ⟨kv, hkv, eq_of_beq hbeq⟩)
  rw [hfil]
  simp

/-- Witness for C5 amended: with the two concrete maneuvers, an empty
shared state and a concrete call, the view the other maneuver has of `t` is
`[7]`. -/
theorem trace_shared_across_runs_witness :
    (flatKeys (shapeOf firstCall)).Nodup ∧
      col (Maneuver.logView
          (Maneuver.log (Maneuver.logView ([] : Trace Nat) maneuverStartFromStop)
            7 firstCall)
          maneuverSteady) "t" = col ([] : Trace Nat) "t" ++ [7] :=
  ⟨by decide,
    trace_shared_across_runs maneuverStartFromStop maneuverSteady [] 7 firstCall (by decide)⟩

end LongitudinalProfiles
